import Mathlib

/-!
Verification of specification claims about the `ldpos-chain` DPoS blockchain
node module.  The definitions below are a shallow embedding of the relevant
parts of `index.js`: pure computations become Lean functions, JavaScript
numbers used as integers become `Int`, `BigInt` balances and fees become
`Int`, JavaScript floating point averages become `ℚ`, fallible code becomes
`Except String`, and external collaborators (the DAL, the crypto client and
the network) become explicit oracle parameters.  Stateful loops become step
functions on explicit state types.
-/

namespace LdposChain

open List

/-- A forged block, restricted to the fields inspected by block verification
and by the block-slot loops (`index.js`: `verifyForgedBlock`,
`startBlockPropagationLoop`, `startBlockProcessingLoop`). -/
structure Block where
  id : String
  height : Int
  timestamp : Int
  previousBlockId : String
  forgerAddress : String
  forgingPublicKey : String
deriving DecidableEq

/-- The forging-key related fields of a sanitized account, as used by
`verifyForgedBlock` and `verifyBlockSignature`.  Missing keys are `none`. -/
structure DelegateAccount where
  address : String
  forgingPublicKey : Option String
  nextForgingPublicKey : Option String
deriving DecidableEq

/-- `getForgingDelegateAddressAtTimestamp` (`index.js` lines 758-766): the
slot index is `Math.floor(timestamp / forgingInterval)` and the delegate is
taken at `slotIndex % activeDelegates.length`.  `Int` division `/` is
euclidean division, which agrees with `Math.floor` of the quotient for a
positive `forgingInterval`.  The source throws when there are no active
delegates before any element access can be observed. -/
def getForgingDelegateAddressAtTimestamp (forgingInterval : Int)
    (topActiveDelegates : List String) (timestamp : Int) : Except String String :=
  if topActiveDelegates.isEmpty then
    .error "Could not find any active delegates"
  else
    let slotIndex := timestamp / forgingInterval
    let targetIndex := (slotIndex % (topActiveDelegates.length : Int)).toNat
    .ok (topActiveDelegates.getD targetIndex "")

/-- `verifyForgedBlock` (`index.js` lines 1688-1755).  The delegate account
fetch, the crypto-client block verification and the per-transaction
verification (`verifyBlockTransactions`) are external effects, modelled by
the `getAccount`, `verifyBlockOk` and `verifyTransactionsOk` oracles.  All
checks are performed in source order. -/
def verifyForgedBlock (forgingInterval : Int) (topActiveDelegates : List String)
    (getAccount : String → Option DelegateAccount) (verifyBlockOk : Bool)
    (verifyTransactionsOk : Bool) (block lastBlock : Block) : Except String Unit :=
  if block.id = lastBlock.id then
    .error "Block has already been received"
  else if block.height ≠ lastBlock.height + 1 then
    .error "Block height was invalid"
  else if block.timestamp % forgingInterval ≠ 0 ∨
      block.timestamp - lastBlock.timestamp < forgingInterval then
    .error "Block timestamp was invalid"
  else
    match getForgingDelegateAddressAtTimestamp forgingInterval topActiveDelegates
        block.timestamp with
    | .error e => .error e
    | .ok targetDelegateAddress =>
      if block.forgerAddress ≠ targetDelegateAddress then
        .error "The block forgerAddress did not match the expected forger delegate address"
      else
        match getAccount targetDelegateAddress with
        | none => .error "Failed to fetch delegate account"
        | some targetDelegateAccount =>
          if some block.forgingPublicKey ≠ targetDelegateAccount.forgingPublicKey ∧
              some block.forgingPublicKey ≠ targetDelegateAccount.nextForgingPublicKey then
            .error "Block forgingPublicKey did not match the keys of the delegate"
          else if block.previousBlockId ≠ lastBlock.id then
            .error "Block previousBlockId did not match the id of the previous block"
          else if verifyBlockOk = false then
            .error "Block ID or signature was invalid"
          else if verifyTransactionsOk = false then
            .error "Block transactions were invalid"
          else
            .ok ()

/-- Claim C1: `verifyForgedBlock` succeeds only if the candidate block id
differs from the last block id, its height is the last height plus one, its
timestamp is slot aligned and at least one forging interval past the last
timestamp, its forger address is the slot-assigned delegate address for its
timestamp, and its `previousBlockId` is the last block id; whenever any of
these conditions fails, verification returns an error and the block is not
accepted. -/
theorem C1_verifyForgedBlock_checks (forgingInterval : Int)
    (topActiveDelegates : List String) (getAccount : String → Option DelegateAccount)
    (verifyBlockOk verifyTransactionsOk : Bool) (block lastBlock : Block) :
    (verifyForgedBlock forgingInterval topActiveDelegates getAccount verifyBlockOk
        verifyTransactionsOk block lastBlock = .ok () →
      block.id ≠ lastBlock.id ∧
      block.height = lastBlock.height + 1 ∧
      block.timestamp % forgingInterval = 0 ∧
      forgingInterval ≤ block.timestamp - lastBlock.timestamp ∧
      getForgingDelegateAddressAtTimestamp forgingInterval topActiveDelegates
          block.timestamp = .ok block.forgerAddress ∧
      block.previousBlockId = lastBlock.id) ∧
    ((block.id = lastBlock.id ∨
      block.height ≠ lastBlock.height + 1 ∨
      block.timestamp % forgingInterval ≠ 0 ∨
      block.timestamp - lastBlock.timestamp < forgingInterval ∨
      getForgingDelegateAddressAtTimestamp forgingInterval topActiveDelegates
          block.timestamp ≠ .ok block.forgerAddress ∨
      block.previousBlockId ≠ lastBlock.id) →
      ∃ e, verifyForgedBlock forgingInterval topActiveDelegates getAccount
          verifyBlockOk verifyTransactionsOk block lastBlock = .error e) := by
  have fwd : verifyForgedBlock forgingInterval topActiveDelegates getAccount
      verifyBlockOk verifyTransactionsOk block lastBlock = .ok () →
      block.id ≠ lastBlock.id ∧
      block.height = lastBlock.height + 1 ∧
      block.timestamp % forgingInterval = 0 ∧
      forgingInterval ≤ block.timestamp - lastBlock.timestamp ∧
      getForgingDelegateAddressAtTimestamp forgingInterval topActiveDelegates
          block.timestamp = .ok block.forgerAddress ∧
      block.previousBlockId = lastBlock.id := by
    intro h
    rw [verifyForgedBlock] at h
    by_cases h1 : block.id = lastBlock.id
    · rw [if_pos h1] at h; simp at h
    rw [if_neg h1] at h
    by_cases h2 : block.height = lastBlock.height + 1
    case neg => rw [if_pos h2] at h; simp at h
    rw [if_neg (not_ne_iff.mpr h2)] at h
    by_cases h3 : block.timestamp % forgingInterval = 0 ∧
        forgingInterval ≤ block.timestamp - lastBlock.timestamp
    case neg =>
      have h3a : block.timestamp % forgingInterval ≠ 0 ∨
          block.timestamp - lastBlock.timestamp < forgingInterval := by
        rcases not_and_or.mp h3 with ha | ha
        · exact Or.inl ha
        · exact Or.inr (not_le.mp ha)
      rw [if_pos h3a] at h; simp at h
    have h3b : ¬ (block.timestamp % forgingInterval ≠ 0 ∨
        block.timestamp - lastBlock.timestamp < forgingInterval) := by
      push_neg
      exact ⟨h3.1, h3.2⟩
    rw [if_neg h3b] at h
    rcases hg : getForgingDelegateAddressAtTimestamp forgingInterval topActiveDelegates
        block.timestamp with e | target
    · rw [hg] at h; simp at h
    rw [hg] at h
    simp only [] at h
    by_cases h4 : block.forgerAddress = target
    case neg => rw [if_pos h4] at h; simp at h
    rw [if_neg (not_ne_iff.mpr h4)] at h
    rcases ha : getAccount target with _ | acct
    · rw [ha] at h; simp at h
    rw [ha] at h
    simp only [] at h
    by_cases h5 : some block.forgingPublicKey ≠ acct.forgingPublicKey ∧
        some block.forgingPublicKey ≠ acct.nextForgingPublicKey
    · rw [if_pos h5] at h; simp at h
    rw [if_neg h5] at h
    by_cases h6 : block.previousBlockId = lastBlock.id
    case neg => rw [if_pos h6] at h; simp at h
    refine ⟨h1, h2, h3.1, h3.2, ?_, h6⟩
    rw [h4]
  refine ⟨fwd, fun hbad => ?_⟩
  rcases hv : verifyForgedBlock forgingInterval topActiveDelegates getAccount
      verifyBlockOk verifyTransactionsOk block lastBlock with e | u
  · exact ⟨e, rfl⟩
  · cases u
    rcases fwd hv with ⟨c1, c2, c3, c4, c5, c6⟩
    rcases hbad with hb | hb | hb | hb | hb | hb
    · exact absurd hb c1
    · exact absurd c2 hb
    · exact absurd c3 hb
    · exact absurd c4 (not_le.mpr hb)
    · exact absurd c5 hb
    · exact absurd c6 hb

/-- A concrete genesis-successor block accepted by `verifyForgedBlock`. -/
def c1Block : Block :=
  { id := "b1", height := 1, timestamp := 30000, previousBlockId := "g",
    forgerAddress := "ldposA", forgingPublicKey := "fpkA" }

/-- The concrete last processed block for the C1 witness. -/
def c1LastBlock : Block :=
  { id := "g", height := 0, timestamp := 0, previousBlockId := "",
    forgerAddress := "", forgingPublicKey := "" }

/-- The concrete delegate account oracle for the C1 witness. -/
def c1GetAccount : String → Option DelegateAccount := fun a =>
  if a = "ldposA" then
    some { address := "ldposA", forgingPublicKey := some "fpkA",
           nextForgingPublicKey := some "fpkA2" }
  else none

/-- Witness for C1 on concrete data: the verification checks hold for a
concretely accepted block. -/
theorem C1_verifyForgedBlock_checks_witness :
    c1Block.id ≠ c1LastBlock.id ∧
    c1Block.height = c1LastBlock.height + 1 ∧
    c1Block.timestamp % 30000 = 0 ∧
    (30000 : Int) ≤ c1Block.timestamp - c1LastBlock.timestamp ∧
    getForgingDelegateAddressAtTimestamp 30000 ["ldposA"] c1Block.timestamp =
      .ok c1Block.forgerAddress ∧
    c1Block.previousBlockId = c1LastBlock.id :=
  (C1_verifyForgedBlock_checks 30000 ["ldposA"] c1GetAccount true true
    c1Block c1LastBlock).1 (by rfl)

/-- The sig-key fields of the in-memory sender account snapshot used by the
per-sender mempool consumer, including the pending key-index window
(`lowestNextSigPublicKeyIndex` / `highestSigPublicKeyIndex`), which is absent
(`none`) until the first pending transaction sets it. -/
structure SigWindowAccount where
  nextSigPublicKey : Option String
  lowestNextSigPublicKeyIndex : Option Int
  highestSigPublicKeyIndex : Option Int
deriving DecidableEq

/-- `if (lowest == null || index < lowest) lowest = index`
(`index.js` lines 2746-2751). -/
def updateLowest (lowest : Option Int) (index : Int) : Option Int :=
  match lowest with
  | none => some index
  | some lo => if index < lo then some index else some lo

/-- `if (highest == null || index > highest) highest = index`
(`index.js` lines 2766-2771). -/
def updateHighest (highest : Option Int) (index : Int) : Option Int :=
  match highest with
  | none => some index
  | some hi => if hi < index then some index else some hi

/-- The key-index ordering check applied by the per-sender mempool consumer
to a sig transaction (`index.js` lines 2729-2772).  If the transaction was
signed with the next public key the branch at line 2732 runs, otherwise the
current-key branch runs. -/
def applySigKeyIndexCheck (acct : SigWindowAccount) (sigPublicKey : String)
    (nextSigKeyIndex : Int) : Except String SigWindowAccount :=
  if some sigPublicKey = acct.nextSigPublicKey then
    match acct.highestSigPublicKeyIndex with
    | some hi =>
      if nextSigKeyIndex ≤ hi then
        .error "nextSigKeyIndex was too low relative to the nextSigKeyIndex of other pending transactions"
      else
        .ok { acct with lowestNextSigPublicKeyIndex := updateLowest acct.lowestNextSigPublicKeyIndex nextSigKeyIndex }
    | none =>
      .ok { acct with lowestNextSigPublicKeyIndex := updateLowest acct.lowestNextSigPublicKeyIndex nextSigKeyIndex }
  else
    match acct.lowestNextSigPublicKeyIndex with
    | some lo =>
      if lo ≤ nextSigKeyIndex then
        .error "nextSigKeyIndex was too high relative to the nextSigKeyIndex of other pending transactions"
      else
        .ok { acct with highestSigPublicKeyIndex := updateHighest acct.highestSigPublicKeyIndex nextSigKeyIndex }
    | none =>
      .ok { acct with highestSigPublicKeyIndex := updateHighest acct.highestSigPublicKeyIndex nextSigKeyIndex }

/-- The claim-side description of how the pending window lowest index moves:
it is lowered to the new index when that is smaller (or installed when the
window was empty). -/
def loweredTo (lowest : Option Int) (index : Int) : Int :=
  match lowest with
  | none => index
  | some lo => min index lo

/-- The claim-side description of how the pending window highest index moves:
it is raised to the new index when that is larger (or installed when the
window was empty). -/
def raisedTo (highest : Option Int) (index : Int) : Int :=
  match highest with
  | none => index
  | some hi => max index hi

/-- `updateLowest` always stores a value, namely the claim-side lowering. -/
theorem updateLowest_eq (lowest : Option Int) (index : Int) :
    updateLowest lowest index = some (loweredTo lowest index) := by
  cases lowest with
  | none => rfl
  | some lo =>
    simp only [updateLowest, loweredTo]
    rcases lt_or_ge index lo with h | h
    · rw [if_pos h, min_eq_left h.le]
    · rw [if_neg (not_lt.mpr h), min_eq_right h]

/-- `updateHighest` always stores a value, namely the claim-side raising. -/
theorem updateHighest_eq (highest : Option Int) (index : Int) :
    updateHighest highest index = some (raisedTo highest index) := by
  cases highest with
  | none => rfl
  | some hi =>
    simp only [updateHighest, raisedTo]
    rcases lt_or_ge hi index with h | h
    · rw [if_pos h, max_eq_left h.le]
    · rw [if_neg (not_lt.mpr h), max_eq_right h]

/-- Claim C2: a sig transaction signed with the next public key is rejected
unless its `nextSigKeyIndex` is strictly greater than the pending window
highest (when one exists), and on acceptance the window lowest is lowered to
the new index when smaller; a transaction signed with the current public key
is rejected unless its `nextSigKeyIndex` is strictly less than the pending
window lowest (when one exists), and on acceptance the window highest is
raised to the new index when larger.  In particular, with the window lowest
at 5, a current-key transaction with index 5 is rejected and one with index
4 is accepted (see the witness). -/
theorem C2_sig_key_index_window (acct : SigWindowAccount) (sigPublicKey : String)
    (nextSigKeyIndex : Int) :
    (some sigPublicKey = acct.nextSigPublicKey →
      ((∃ hi, acct.highestSigPublicKeyIndex = some hi ∧ nextSigKeyIndex ≤ hi) →
        ∃ e, applySigKeyIndexCheck acct sigPublicKey nextSigKeyIndex = .error e) ∧
      ((∀ hi, acct.highestSigPublicKeyIndex = some hi → hi < nextSigKeyIndex) →
        applySigKeyIndexCheck acct sigPublicKey nextSigKeyIndex =
          .ok { acct with lowestNextSigPublicKeyIndex := some (loweredTo acct.lowestNextSigPublicKeyIndex nextSigKeyIndex) })) ∧
    (some sigPublicKey ≠ acct.nextSigPublicKey →
      ((∃ lo, acct.lowestNextSigPublicKeyIndex = some lo ∧ lo ≤ nextSigKeyIndex) →
        ∃ e, applySigKeyIndexCheck acct sigPublicKey nextSigKeyIndex = .error e) ∧
      ((∀ lo, acct.lowestNextSigPublicKeyIndex = some lo → nextSigKeyIndex < lo) →
        applySigKeyIndexCheck acct sigPublicKey nextSigKeyIndex =
          .ok { acct with highestSigPublicKeyIndex := some (raisedTo acct.highestSigPublicKeyIndex nextSigKeyIndex) })) := by
  constructor
  · intro hnext
    rw [applySigKeyIndexCheck, if_pos hnext]
    constructor
    · rintro ⟨hi, hhi, hle⟩
      exact ⟨_, by simp only [hhi]; rw [if_pos hle]⟩
    · intro hgt
      rcases hh : acct.highestSigPublicKeyIndex with _ | hi
      · simp only [updateLowest_eq]
      · simp only [hh]
        rw [if_neg (not_le.mpr (hgt hi hh))]
        simp only [updateLowest_eq]
  · intro hcur
    rw [applySigKeyIndexCheck, if_neg hcur]
    constructor
    · rintro ⟨lo, hlo, hle⟩
      exact ⟨_, by simp only [hlo]; rw [if_pos hle]⟩
    · intro hlt
      rcases hl : acct.lowestNextSigPublicKeyIndex with _ | lo
      · simp only [updateHighest_eq]
      · simp only [hl]
        rw [if_neg (not_le.mpr (hlt lo hl))]
        simp only [updateHighest_eq]

/-- The concrete C2 window account: the sender account has
`nextSigPublicKey` K2 and a pending window with lowest 5. -/
def c2Acct : SigWindowAccount :=
  { nextSigPublicKey := some "K2", lowestNextSigPublicKeyIndex := some 5,
    highestSigPublicKeyIndex := none }

/-- Witness for C2 on concrete data: with window lowest 5, a current-key
transaction with index 5 is rejected and one with index 4 is accepted. -/
theorem C2_sig_key_index_window_witness :
    (∃ e, applySigKeyIndexCheck c2Acct "K1" 5 = .error e) ∧
    applySigKeyIndexCheck c2Acct "K1" 4 =
      .ok { c2Acct with highestSigPublicKeyIndex := some 4 } := by
  refine ⟨((C2_sig_key_index_window c2Acct "K1" 5).2 (by decide)).1 ⟨5, rfl, by decide⟩, ?_⟩
  have h : applySigKeyIndexCheck c2Acct "K1" 4 =
      .ok { c2Acct with highestSigPublicKeyIndex := some (raisedTo c2Acct.highestSigPublicKeyIndex 4) } :=
    ((C2_sig_key_index_window c2Acct "K1" 4).2 (by decide)).2
      (fun lo hlo => by injection hlo with h5; omega)
  exact h

/-- A persisted account record, restricted to the fields that decide whether
`processBlock` writes it back (`index.js` lines 1041-1064). -/
structure StoredAccount where
  address : String
  balance : Int
  updateHeight : Option Int
deriving DecidableEq

/-- A persisted delegate record (`index.js` lines 1195-1211). -/
structure StoredDelegate where
  address : String
  voteWeight : Int
  updateHeight : Option Int
deriving DecidableEq

/-- The per-account write step of `processBlock` (`index.js` lines
1041-1064): the update packet always carries `updateHeight = height`; a full
upsert happens when the account has no `updateHeight`, a patch happens when
`account.updateHeight < height`, and otherwise nothing is written
(`none`). -/
def accountWrite (account : StoredAccount) (changesBalance : Int)
    (height : Int) : Option StoredAccount :=
  match account.updateHeight with
  | none =>
    some { account with balance := changesBalance, updateHeight := some height }
  | some u =>
    if u < height then
      some { address := account.address, balance := changesBalance, updateHeight := some height }
    else
      none

/-- The per-delegate vote-weight write step of `processBlock` (`index.js`
lines 1195-1211), guarded by the same `updateHeight` rule. -/
def delegateWrite (delegate : StoredDelegate) (voteWeightDelta : Int)
    (height : Int) : Option StoredDelegate :=
  match delegate.updateHeight with
  | none =>
    some { address := delegate.address, voteWeight := delegate.voteWeight + voteWeightDelta, updateHeight := some height }
  | some u =>
    if u < height then
      some { address := delegate.address, voteWeight := delegate.voteWeight + voteWeightDelta, updateHeight := some height }
    else
      none

/-- The delegate-registration write of `processBlock` (`index.js` lines
1066-1077): a fresh delegate record is inserted only when `hasDelegate` is
false. -/
def delegateRegistrationWrite (hasDelegate : Bool) (delegateAddress : String) :
    Option StoredDelegate :=
  if hasDelegate then none
  else some { address := delegateAddress, voteWeight := 0, updateHeight := none }

/-- All account records actually written by the write phase of
`processBlock` for the given affected accounts and their changed balances. -/
def processAccountWrites (accounts : List (StoredAccount × Int)) (height : Int) :
    List StoredAccount :=
  accounts.filterMap fun p => accountWrite p.1 p.2 height

/-- All delegate records actually written by the vote-weight write phase of
`processBlock`. -/
def processDelegateWrites (delegates : List (StoredDelegate × Int)) (height : Int) :
    List StoredDelegate :=
  delegates.filterMap fun p => delegateWrite p.1 p.2 height

/-- All delegate records inserted by the registration phase of
`processBlock`. -/
def processDelegateRegistrations (registrations : List (String × Bool)) :
    List StoredDelegate :=
  registrations.filterMap fun p => delegateRegistrationWrite p.2 p.1

/-- Claim C3: an account is written by `processBlock` at height `h` only when
it has no prior `updateHeight` or its `updateHeight` is below `h`, and the
written record carries `updateHeight = h`; the same guard protects delegate
vote-weight writes.  Consequently, re-processing a block whose affected
accounts and delegates all already have `updateHeight ≥ h` (and whose
registered delegates all exist) performs no account or delegate write at
all. -/
theorem C3_update_height_guard (height : Int) :
    (∀ (account : StoredAccount) (changesBalance : Int) (w : StoredAccount),
      accountWrite account changesBalance height = some w →
        (account.updateHeight = none ∨
          ∃ u, account.updateHeight = some u ∧ u < height) ∧
        w.updateHeight = some height) ∧
    (∀ (delegate : StoredDelegate) (voteWeightDelta : Int) (w : StoredDelegate),
      delegateWrite delegate voteWeightDelta height = some w →
        (delegate.updateHeight = none ∨
          ∃ u, delegate.updateHeight = some u ∧ u < height) ∧
        w.updateHeight = some height) ∧
    (∀ (accounts : List (StoredAccount × Int))
        (delegates : List (StoredDelegate × Int))
        (registrations : List (String × Bool)),
      (∀ p ∈ accounts, ∃ u, p.1.updateHeight = some u ∧ height ≤ u) →
      (∀ p ∈ delegates, ∃ u, p.1.updateHeight = some u ∧ height ≤ u) →
      (∀ p ∈ registrations, p.2 = true) →
        processAccountWrites accounts height = [] ∧
        processDelegateWrites delegates height = [] ∧
        processDelegateRegistrations registrations = []) := by
  refine ⟨?_, ?_, ?_⟩
  · intro account changesBalance w hw
    rw [accountWrite] at hw
    split at hw
    next hu =>
      injection hw with hw2
      subst hw2
      exact ⟨Or.inl hu, rfl⟩
    next u hu =>
      split at hw
      next hlt =>
        injection hw with hw2
        subst hw2
        exact ⟨Or.inr ⟨u, hu, hlt⟩, rfl⟩
      next hlt => simp at hw
  · intro delegate voteWeightDelta w hw
    rw [delegateWrite] at hw
    split at hw
    next hu =>
      injection hw with hw2
      subst hw2
      exact ⟨Or.inl hu, rfl⟩
    next u hu =>
      split at hw
      next hlt =>
        injection hw with hw2
        subst hw2
        exact ⟨Or.inr ⟨u, hu, hlt⟩, rfl⟩
      next hlt => simp at hw
  · intro accounts delegates registrations hacc hdel hreg
    refine ⟨?_, ?_, ?_⟩
    · rw [processAccountWrites, List.filterMap_eq_nil_iff]
      intro p hp
      rcases hacc p hp with ⟨u, hu, hge⟩
      simp [accountWrite, hu, not_lt.mpr hge]
    · rw [processDelegateWrites, List.filterMap_eq_nil_iff]
      intro p hp
      rcases hdel p hp with ⟨u, hu, hge⟩
      simp [delegateWrite, hu, not_lt.mpr hge]
    · rw [processDelegateRegistrations, List.filterMap_eq_nil_iff]
      intro p hp
      rw [delegateRegistrationWrite, if_pos (hreg p hp)]

/-- Witness for C3 on concrete data: a record below the height is written
with the new height, and a fully re-processed state yields no writes. -/
theorem C3_update_height_guard_witness :
    ((⟨"A", 7, some 2⟩ : StoredAccount).updateHeight = none ∨
      ∃ u, (⟨"A", 7, some 2⟩ : StoredAccount).updateHeight = some u ∧ u < 3) ∧
    (⟨"A", 7, some 3⟩ : StoredAccount).updateHeight = some 3 ∧
    processAccountWrites [(⟨"A", 7, some 3⟩, 9)] 3 = [] ∧
    processDelegateWrites [(⟨"D", 5, some 3⟩, 1)] 3 = [] ∧
    processDelegateRegistrations [("D", true)] = [] := by
  have h1 := (C3_update_height_guard 3).1 ⟨"A", 7, some 2⟩ 7 ⟨"A", 7, some 3⟩ (by decide)
  have h3 := (C3_update_height_guard 3).2.2 [(⟨"A", 7, some 3⟩, 9)]
    [(⟨"D", 5, some 3⟩, 1)] [("D", true)]
    (by intro p hp; simp at hp; subst hp; exact ⟨3, rfl, le_refl 3⟩)
    (by intro p hp; simp at hp; subst hp; exact ⟨3, rfl, le_refl 3⟩)
    (by intro p hp; simp at hp; subst hp; rfl)
  exact ⟨h1.1, h1.2, h3.1, h3.2.1, h3.2.2⟩

/-- The balance-relevant content of a transaction inside a block processed by
`processBlock`: a transfer carries a recipient and an amount, every other
transaction type only charges its fee to the sender (`index.js` lines
952-962). -/
inductive TxnKind
  | transfer (recipientAddress : String) (amount : Int)
  | other
deriving DecidableEq

/-- A transaction of a processed block, restricted to the fields that move
balances. -/
structure BTxn where
  senderAddress : String
  fee : Int
  kind : TxnKind
deriving DecidableEq

/-- The balance mutations performed for one transaction by the `processBlock`
loop (`index.js` lines 922-1037): a transfer debits `amount + fee` from the
sender and credits `amount` to the recipient; any other transaction debits
`fee` from the sender. -/
def applyTxnBalances (balances : String → Int) (t : BTxn) : String → Int :=
  match t.kind with
  | .transfer recipientAddress amount =>
    let afterSender : String → Int := fun a =>
      if a = t.senderAddress then balances a - (amount + t.fee) else balances a
    fun a => if a = recipientAddress then afterSender a + amount else afterSender a
  | .other =>
    fun a => if a = t.senderAddress then balances a - t.fee else balances a

/-- `totalBlockFees` accumulated over the block transactions (`index.js`
lines 920, 935-936). -/
def totalBlockFees (transactions : List BTxn) : Int :=
  (transactions.map fun t => t.fee).sum

/-- The in-memory balances after the `processBlock` transaction loop followed
by the fee credit to the forger (`index.js` line 1039:
`forgerAccountChanges.balance += totalBlockFees`). -/
def processBlockBalances (balances : String → Int) (forgerAddress : String)
    (transactions : List BTxn) : String → Int :=
  let afterTxns := transactions.foldl applyTxnBalances balances
  fun a => if a = forgerAddress then afterTxns a + totalBlockFees transactions else afterTxns a

/-- The initial balances for the C4 counterexample. -/
def c4Balances : String → Int := fun a => if a = "A" then 200 else 0

/-- The C4 counterexample transaction: a transfer of 100 with fee 10 from A
to the forger F. -/
def c4Txn : BTxn :=
  { senderAddress := "A", fee := 10, kind := .transfer "F" 100 }

/-- Counterexample to C4 as stated: when the forger F is the recipient of a
transfer inside its own block, the forger balance delta is the transfer
amount plus the fees (110), not the sum of the fees (10). -/
theorem C4_forger_fee_counterexample :
    processBlockBalances c4Balances "F" [c4Txn] "F" - c4Balances "F" = 110 ∧
    totalBlockFees [c4Txn] = 10 ∧
    processBlockBalances c4Balances "F" [c4Txn] "F" - c4Balances "F" ≠
      totalBlockFees [c4Txn] := by
  refine ⟨by decide, by decide, by decide⟩

/-- A transaction that neither is sent by `addr` nor transfers to `addr`
leaves the balance of `addr` unchanged. -/
theorem applyTxnBalances_untouched (balances : String → Int) (t : BTxn)
    (addr : String) (hs : t.senderAddress ≠ addr)
    (hr : ∀ r amt, t.kind = .transfer r amt → r ≠ addr) :
    applyTxnBalances balances t addr = balances addr := by
  have hsn : addr ≠ t.senderAddress := fun h => hs h.symm
  rcases hk : t.kind with ⟨r, amt⟩ | _
  · have hrn : addr ≠ r := fun h => hr r amt hk h.symm
    simp [applyTxnBalances, hk, hrn, hsn]
  · simp [applyTxnBalances, hk, hsn]

/-- Folding the balance mutations of transactions that never touch `addr`
leaves the balance of `addr` unchanged. -/
theorem foldl_applyTxnBalances_untouched (transactions : List BTxn)
    (balances : String → Int) (addr : String)
    (h : ∀ t ∈ transactions, t.senderAddress ≠ addr ∧
      ∀ r amt, t.kind = .transfer r amt → r ≠ addr) :
    transactions.foldl applyTxnBalances balances addr = balances addr := by
  induction transactions generalizing balances with
  | nil => rfl
  | cons t ts ih =>
    rw [List.foldl_cons, ih (applyTxnBalances balances t)
      (fun u hu => h u (List.mem_cons_of_mem _ hu))]
    exact applyTxnBalances_untouched balances t addr
      (h t (List.mem_cons_self t ts)).1 (h t (List.mem_cons_self t ts)).2

/-- Claim C4 (amended): provided the forger is neither the sender of any
transaction in the block nor the recipient of any transfer in the block, the
forger balance after `processBlock` minus its balance before equals the sum
of the transaction fees.  (The unamended claim fails when the forger sends
or receives a transaction inside its own block, see the counterexample.) -/
theorem C4_forger_fee_credit (balances : String → Int) (forgerAddress : String)
    (transactions : List BTxn)
    (hs : ∀ t ∈ transactions, t.senderAddress ≠ forgerAddress)
    (hr : ∀ t ∈ transactions, ∀ r amt, t.kind = .transfer r amt → r ≠ forgerAddress) :
    processBlockBalances balances forgerAddress transactions forgerAddress -
      balances forgerAddress = totalBlockFees transactions := by
  have hfold := foldl_applyTxnBalances_untouched transactions balances forgerAddress
    (fun t ht => ⟨hs t ht, hr t ht⟩)
  simp only [processBlockBalances, if_pos rfl, hfold]
  omega

/-- The C4 witness transaction: a transfer not involving the forger. -/
def c4wTxn : BTxn :=
  { senderAddress := "A", fee := 10, kind := .transfer "C" 100 }

/-- Witness for the amended C4 on concrete data: with a single transfer not
involving the forger, the forger balance delta is exactly the fee. -/
theorem C4_forger_fee_credit_witness :
    processBlockBalances c4Balances "F" [c4wTxn] "F" - c4Balances "F" = 10 := by
  have h := C4_forger_fee_credit c4Balances "F" [c4wTxn]
    (by intro t ht; simp at ht; subst ht; decide)
    (by intro t ht; simp at ht; subst ht; intro r amt hk; cases hk; decide)
  exact h.trans (by decide)

/-- A peer-broadcast block signature, restricted to the fields inspected by
`verifyBlockSignature` and the signature gossip handler. -/
structure BlockSignature where
  blockId : String
  signerAddress : String
  forgingPublicKey : String
deriving DecidableEq

/-- The `verifyBlockSignature` method (`index.js` lines 1867-1911).  It
checks the block id, fetches the signer account, checks the forging key and
the top-active-delegate membership, and then RETURNS the boolean result of
`ldposClient.verifyBlockSignature` instead of raising on a false result.
`cryptoResult` is the oracle for that crypto-client boolean. -/
def verifyBlockSignatureFn (getAccount : String → Option DelegateAccount)
    (topActiveDelegateAddressSet : List String) (cryptoResult : Bool)
    (block : Block) (blockSignature : BlockSignature) : Except String Bool :=
  if blockSignature.blockId ≠ block.id then
    .error "Received block signature for a different block"
  else
    match getAccount blockSignature.signerAddress with
    | none => .error "Failed to fetch signer account"
    | some signerAccount =>
      if some blockSignature.forgingPublicKey ≠ signerAccount.forgingPublicKey ∧
          some blockSignature.forgingPublicKey ≠ signerAccount.nextForgingPublicKey then
        .error "Block signature forgingPublicKey did not match the keys of the signer account"
      else if blockSignature.signerAddress ∉ topActiveDelegateAddressSet then
        .error "Account is not a top active delegate and therefore cannot be a block signer"
      else
        .ok cryptoResult

/-- The state read and written by the block-signature gossip handler
(`startBlockSignaturePropagationLoop`, `index.js` lines 2987-3040). -/
structure SignatureHandlerState where
  activeBlockId : Option String
  lastReceivedBlock : Block
  lastReceivedSignerAddressSet : List String
deriving DecidableEq

/-- One run of the block-signature gossip handler on a received signature.
The returned `Bool` records whether the signature was written to
`verifiedBlockSignatureStream`.  Note that the handler awaits
`verifyBlockSignature` inside a try/catch and DISCARDS its boolean result:
only a thrown error rejects the signature (`index.js` lines 3017-3024). -/
def blockSignatureHandlerStep (getAccount : String → Option DelegateAccount)
    (topActiveDelegateAddressSet : List String) (cryptoResult : Bool)
    (st : SignatureHandlerState) (blockSignature : BlockSignature) :
    Bool × SignatureHandlerState :=
  if st.activeBlockId ≠ some blockSignature.blockId then
    (false, st)
  else if blockSignature.signerAddress = st.lastReceivedBlock.forgerAddress then
    (false, st)
  else
    match verifyBlockSignatureFn getAccount topActiveDelegateAddressSet cryptoResult
        st.lastReceivedBlock blockSignature with
    | .error _ => (false, st)
    | .ok _discardedCryptoResult =>
      if blockSignature.signerAddress ∈ st.lastReceivedSignerAddressSet then
        (false, st)
      else
        (true, { st with lastReceivedSignerAddressSet :=
            blockSignature.signerAddress :: st.lastReceivedSignerAddressSet })

/-- The concrete active block for the C5 failing input. -/
def c5Block : Block :=
  { id := "b1", height := 1, timestamp := 30000, previousBlockId := "g",
    forgerAddress := "ldposA", forgingPublicKey := "fpkA" }

/-- The concrete handler state for the C5 failing input. -/
def c5State : SignatureHandlerState :=
  { activeBlockId := some "b1", lastReceivedBlock := c5Block,
    lastReceivedSignerAddressSet := [] }

/-- The concrete signature for the C5 failing input: metadata all valid. -/
def c5Signature : BlockSignature :=
  { blockId := "b1", signerAddress := "ldposB", forgingPublicKey := "fpkB" }

/-- The concrete signer-account oracle for the C5 failing input. -/
def c5GetAccount : String → Option DelegateAccount := fun a =>
  if a = "ldposB" then
    some { address := "ldposB", forgingPublicKey := some "fpkB",
           nextForgingPublicKey := some "fpkB2" }
  else none

/-- Claim C5 names a code bug: the handler accepts and writes a signature to
the verified-signature stream even though the crypto-client verification
result is `false`, because `verifyBlockSignature` returns that boolean and
the handler discards it.  Here every metadata condition holds, the crypto
oracle answers `false`, and the signature is nevertheless accepted. -/
theorem C5_invalid_crypto_signature_accepted :
    verifyBlockSignatureFn c5GetAccount ["ldposA", "ldposB"] false c5Block
        c5Signature = .ok false ∧
    (blockSignatureHandlerStep c5GetAccount ["ldposA", "ldposB"] false c5State
        c5Signature).1 = true := by
  refine ⟨by rfl, by rfl⟩

/-- `getCurrentBlockTimeSlot` (`index.js` lines 754-756):
`Math.floor(now / forgingInterval) * forgingInterval`. -/
def slotTimestamp (forgingInterval now : Int) : Int :=
  (now / forgingInterval) * forgingInterval

/-- The state shared between the block gossip handler
(`startBlockPropagationLoop`) and the signing stage of the block processing
loop (`startBlockProcessingLoop`): the last received block, the recorded
double-forge timestamp, and the wall clock of the last observed event. -/
structure NodeState where
  lastReceivedBlock : Block
  lastDoubleForgedBlockTimestamp : Option Int
  clock : Int
deriving DecidableEq

/-- The events relevant to the double-forging defence.  `receiveBlock` is a
delivery of a peer block to the gossip handler (`verifiedOk` abstracts the
outcome of `verifyForgedBlock`, `txnChecksOk` the pending-transaction fetch
and signature-hash checks); `forgeBlock` is the local forging stage
installing its own block; `signAttempt` is a local forging delegate reaching
the signature stage for the block it holds (`signatureOk` abstracts the
self-signature verification).  Every event carries the wall-clock time `now`
at which it runs. -/
inductive NodeEvent
  | receiveBlock (b : Block) (now : Int) (verifiedOk : Bool) (txnChecksOk : Bool)
  | forgeBlock (b : Block) (now : Int)
  | signAttempt (b : Block) (now : Int) (signatureOk : Bool)
deriving DecidableEq

/-- The externally visible actions of a step. -/
inductive NodeOutput
  | propagateBlock (id : String)
  | ingestBlock (id : String)
  | broadcastSignature (blockId : String) (timestamp : Int)
deriving DecidableEq

/-- One linearized step of the two loops.  `receiveBlock` mirrors
`startBlockPropagationLoop` (`index.js` lines 2852-2984): the
already-received check (2863), verification (2868), the current-slot check
(2871), the double-forge branch (2884-2896) which propagates the block once
and records `lastDoubleForgedBlockTimestamp` without ingesting, and the
normal path which ingests and propagates.  `forgeBlock` mirrors the forging
stage (2268-2288) installing the freshly forged block for the current slot.
`signAttempt` mirrors the signing stage (2327-2356): the delegate signs the
block it holds, refuses to send the signature when
`lastDoubleForgedBlockTimestamp` equals the block timestamp (2339-2347), and
otherwise broadcasts it.  Events arriving with a clock in the past are
no-ops: wall-clock time is monotone. -/
def nodeStep (forgingInterval : Int) (st : NodeState) (ev : NodeEvent) :
    List NodeOutput × NodeState :=
  match ev with
  | .receiveBlock b now verifiedOk txnChecksOk =>
    if now < st.clock then ([], st)
    else
      let st1 : NodeState := { st with clock := now }
      if b.id = st.lastReceivedBlock.id then ([], st1)
      else if verifiedOk = false then ([], st1)
      else if b.timestamp ≠ slotTimestamp forgingInterval now then ([], st1)
      else if b.timestamp = st.lastReceivedBlock.timestamp then
        if st.lastDoubleForgedBlockTimestamp = some st.lastReceivedBlock.timestamp then
          ([], st1)
        else
          ([.propagateBlock b.id],
            { st1 with lastDoubleForgedBlockTimestamp := some st.lastReceivedBlock.timestamp })
      else if txnChecksOk = false then ([], st1)
      else
        ([.ingestBlock b.id, .propagateBlock b.id], { st1 with lastReceivedBlock := b })
  | .forgeBlock b now =>
    if now < st.clock then ([], st)
    else if b.timestamp = slotTimestamp forgingInterval now then
      ([.propagateBlock b.id], { st with clock := now, lastReceivedBlock := b })
    else ([], { st with clock := now })
  | .signAttempt b now signatureOk =>
    if now < st.clock then ([], st)
    else
      let st1 : NodeState := { st with clock := now }
      if b ≠ st.lastReceivedBlock then ([], st1)
      else if st.lastDoubleForgedBlockTimestamp = some b.timestamp then ([], st1)
      else if signatureOk then ([.broadcastSignature b.id b.timestamp], st1)
      else ([], st1)

/-- Running a list of events from a state, collecting all outputs. -/
def nodeRun (forgingInterval : Int) (st : NodeState) :
    List NodeEvent → List NodeOutput × NodeState
  | [] => ([], st)
  | ev :: evs =>
    let step := nodeStep forgingInterval st ev
    let rest := nodeRun forgingInterval step.2 evs
    (step.1 ++ rest.1, rest.2)

/-- `slotTimestamp` is monotone in the clock for a positive interval. -/
theorem slotTimestamp_mono (forgingInterval : Int) (hI : 0 < forgingInterval)
    {a b : Int} (hab : a ≤ b) :
    slotTimestamp forgingInterval a ≤ slotTimestamp forgingInterval b :=
  mul_le_mul_of_nonneg_right (Int.ediv_le_ediv hI hab) hI.le

/-- The invariant holding from the moment a double forge at timestamp `t`
has been recorded: the held block is never newer than the current slot, and
either the held block still carries timestamp `t` and the double-forge
record still names `t`, or the held block has moved past `t`. -/
def DoubleForgeRecorded (forgingInterval t : Int) (st : NodeState) : Prop :=
  st.lastReceivedBlock.timestamp ≤ slotTimestamp forgingInterval st.clock ∧
  ((st.lastDoubleForgedBlockTimestamp = some t ∧
      st.lastReceivedBlock.timestamp = t) ∨
    t < st.lastReceivedBlock.timestamp)

/-- Each step preserves `DoubleForgeRecorded` and, while it holds, never
outputs a signature broadcast for a block carrying timestamp `t`. -/
theorem nodeStep_preserves_doubleForgeRecorded (forgingInterval t : Int)
    (hI : 0 < forgingInterval) (st : NodeState) (ev : NodeEvent)
    (hinv : DoubleForgeRecorded forgingInterval t st) :
    DoubleForgeRecorded forgingInterval t (nodeStep forgingInterval st ev).2 ∧
    ∀ bid, NodeOutput.broadcastSignature bid t ∉ (nodeStep forgingInterval st ev).1 := by
  obtain ⟨hclk, hcase⟩ := hinv
  rcases ev with ⟨b, now, verifiedOk, txnChecksOk⟩ | ⟨b, now⟩ | ⟨b, now, signatureOk⟩
  · rw [nodeStep]
    by_cases hnow : now < st.clock
    · rw [if_pos hnow]
      exact ⟨⟨hclk, hcase⟩, by simp⟩
    rw [if_neg hnow]
    have hclk2 : st.lastReceivedBlock.timestamp ≤ slotTimestamp forgingInterval now :=
      le_trans hclk (slotTimestamp_mono forgingInterval hI (not_lt.mp hnow))
    by_cases hid : b.id = st.lastReceivedBlock.id
    · rw [if_pos hid]
      exact ⟨⟨hclk2, hcase⟩, by simp⟩
    rw [if_neg hid]
    by_cases hver : verifiedOk = false
    · rw [if_pos hver]
      exact ⟨⟨hclk2, hcase⟩, by simp⟩
    rw [if_neg hver]
    by_cases hslot : b.timestamp = slotTimestamp forgingInterval now
    case neg =>
      rw [if_pos hslot]
      exact ⟨⟨hclk2, hcase⟩, by simp⟩
    rw [if_neg (not_ne_iff.mpr hslot)]
    by_cases hdup : b.timestamp = st.lastReceivedBlock.timestamp
    · rw [if_pos hdup]
      by_cases hrec : st.lastDoubleForgedBlockTimestamp =
          some st.lastReceivedBlock.timestamp
      · rw [if_pos hrec]
        exact ⟨⟨hclk2, hcase⟩, by simp⟩
      · rw [if_neg hrec]
        refine ⟨⟨hclk2, ?_⟩, by simp⟩
        rcases hcase with ⟨hd, ht⟩ | ht
        · exact Or.inl ⟨by rw [ht], ht⟩
        · exact Or.inr ht
    rw [if_neg hdup]
    by_cases htxn : txnChecksOk = false
    · rw [if_pos htxn]
      exact ⟨⟨hclk2, hcase⟩, by simp⟩
    rw [if_neg htxn]
    refine ⟨⟨hslot ▸ le_refl _, ?_⟩, by simp⟩
    have hgt : st.lastReceivedBlock.timestamp < b.timestamp := by
      rcases lt_or_eq_of_le (hslot ▸ hclk2 :
        st.lastReceivedBlock.timestamp ≤ b.timestamp) with h | h
      · exact h
      · exact absurd h.symm hdup
    rcases hcase with ⟨hd, ht⟩ | ht
    · exact Or.inr (ht ▸ hgt)
    · exact Or.inr (lt_trans ht hgt)
  · rw [nodeStep]
    by_cases hnow : now < st.clock
    · rw [if_pos hnow]
      exact ⟨⟨hclk, hcase⟩, by simp⟩
    rw [if_neg hnow]
    have hclk2 : st.lastReceivedBlock.timestamp ≤ slotTimestamp forgingInterval now :=
      le_trans hclk (slotTimestamp_mono forgingInterval hI (not_lt.mp hnow))
    by_cases hslot : b.timestamp = slotTimestamp forgingInterval now
    · rw [if_pos hslot]
      refine ⟨⟨hslot ▸ le_refl _, ?_⟩, by simp⟩
      have hge : st.lastReceivedBlock.timestamp ≤ b.timestamp := hslot ▸ hclk2
      rcases hcase with ⟨hd, ht⟩ | ht
      · rcases lt_or_eq_of_le hge with h | h
        · exact Or.inr (ht ▸ h)
        · exact Or.inl ⟨hd, by rw [← h, ht]⟩
      · exact Or.inr (lt_of_lt_of_le ht hge)
    · rw [if_neg hslot]
      exact ⟨⟨hclk2, hcase⟩, by simp⟩
  · rw [nodeStep]
    by_cases hnow : now < st.clock
    · rw [if_pos hnow]
      exact ⟨⟨hclk, hcase⟩, by simp⟩
    rw [if_neg hnow]
    have hclk2 : st.lastReceivedBlock.timestamp ≤ slotTimestamp forgingInterval now :=
      le_trans hclk (slotTimestamp_mono forgingInterval hI (not_lt.mp hnow))
    by_cases hb : b = st.lastReceivedBlock
    case neg =>
      rw [if_pos hb]
      exact ⟨⟨hclk2, hcase⟩, by simp⟩
    rw [if_neg (not_ne_iff.mpr hb)]
    by_cases hrec : st.lastDoubleForgedBlockTimestamp = some b.timestamp
    · rw [if_pos hrec]
      exact ⟨⟨hclk2, hcase⟩, by simp⟩
    · rw [if_neg hrec]
      by_cases hsig : signatureOk = true
      · rw [if_pos hsig]
        refine ⟨⟨hclk2, hcase⟩, ?_⟩
        intro bid hmem
        simp only [List.mem_singleton] at hmem
        have hts : b.timestamp = t := by
          injection hmem with h1 h2
          exact h2.symm
        rcases hcase with ⟨hd, ht⟩ | ht
        · exact hrec (by rw [hts, ← hd])
        · subst hb
          omega
      · rw [if_neg hsig]
        exact ⟨⟨hclk2, hcase⟩, by simp⟩

/-- After running any further events from a state satisfying the invariant,
no signature for a block with timestamp `t` is ever broadcast. -/
theorem nodeRun_no_signature_for_doubleforged (forgingInterval t : Int)
    (hI : 0 < forgingInterval) (st : NodeState)
    (hinv : DoubleForgeRecorded forgingInterval t st) (evs : List NodeEvent) :
    ∀ bid, NodeOutput.broadcastSignature bid t ∉ (nodeRun forgingInterval st evs).1 := by
  induction evs generalizing st with
  | nil => intro bid; simp [nodeRun]
  | cons ev evs ih =>
    intro bid
    obtain ⟨hpres, hout⟩ :=
      nodeStep_preserves_doubleForgeRecorded forgingInterval t hI st ev hinv
    rw [nodeRun]
    simp only [List.mem_append]
    rintro (hmem | hmem)
    · exact hout bid hmem
    · exact ih _ hpres bid hmem

/-- Claim C6: when a verified block `b` arrives carrying the same slot
timestamp as the held last received block but a different id, the handler
retains the first block, propagates the second exactly once (its only
output), records `lastDoubleForgedBlockTimestamp` as that timestamp, does
not ingest the second block, and from the resulting state no later step ever
broadcasts a local delegate signature for any block carrying that
timestamp. -/
theorem C6_double_forge_defence (forgingInterval : Int) (hI : 0 < forgingInterval)
    (st : NodeState) (b : Block) (now : Int) (txnChecksOk : Bool)
    (hclk : st.clock ≤ now)
    (hheld : st.lastReceivedBlock.timestamp ≤ slotTimestamp forgingInterval st.clock)
    (hslot : b.timestamp = slotTimestamp forgingInterval now)
    (hts : b.timestamp = st.lastReceivedBlock.timestamp)
    (hid : b.id ≠ st.lastReceivedBlock.id)
    (hfresh : st.lastDoubleForgedBlockTimestamp ≠
      some st.lastReceivedBlock.timestamp) :
    (nodeStep forgingInterval st (.receiveBlock b now true txnChecksOk)).1 =
      [.propagateBlock b.id] ∧
    (nodeStep forgingInterval st (.receiveBlock b now true txnChecksOk)).2.lastReceivedBlock =
      st.lastReceivedBlock ∧
    (nodeStep forgingInterval st (.receiveBlock b now true txnChecksOk)).2.lastDoubleForgedBlockTimestamp =
      some b.timestamp ∧
    ∀ (evs : List NodeEvent) (bid : String),
      NodeOutput.broadcastSignature bid b.timestamp ∉
        (nodeRun forgingInterval
          (nodeStep forgingInterval st (.receiveBlock b now true txnChecksOk)).2 evs).1 := by
  have hstep : nodeStep forgingInterval st (.receiveBlock b now true txnChecksOk) =
      ([.propagateBlock b.id],
        { st with clock := now, lastDoubleForgedBlockTimestamp := some st.lastReceivedBlock.timestamp }) := by
    rw [nodeStep, if_neg (not_lt.mpr hclk), if_neg hid, if_neg (by simp),
      if_neg (not_ne_iff.mpr hslot), if_pos hts, if_neg hfresh]
  rw [hstep]
  refine ⟨rfl, rfl, by rw [hts], ?_⟩
  intro evs bid
  refine nodeRun_no_signature_for_doubleforged forgingInterval b.timestamp hI _ ?_ evs bid
  refine ⟨le_trans hheld (slotTimestamp_mono forgingInterval hI hclk), ?_⟩
  exact Or.inl ⟨by rw [hts], hts.symm⟩

/-- The first received block of the C6 witness slot. -/
def c6B1 : Block :=
  { id := "b1", height := 1, timestamp := 30000, previousBlockId := "g",
    forgerAddress := "ldposA", forgingPublicKey := "fpkA" }

/-- The double-forged sibling of the C6 witness: same timestamp, other id. -/
def c6B2 : Block :=
  { id := "b2", height := 1, timestamp := 30000, previousBlockId := "g",
    forgerAddress := "ldposA", forgingPublicKey := "fpkA" }

/-- The node state holding the first block when the sibling arrives. -/
def c6St : NodeState :=
  { lastReceivedBlock := c6B1, lastDoubleForgedBlockTimestamp := none,
    clock := 30000 }

/-- Witness for C6 on concrete data: the sibling is propagated once and not
ingested, the timestamp is recorded, and a later signing attempt for the
retained block at that timestamp broadcasts nothing. -/
theorem C6_double_forge_defence_witness :
    (nodeStep 30000 c6St (.receiveBlock c6B2 31000 true true)).1 =
      [.propagateBlock "b2"] ∧
    (nodeStep 30000 c6St (.receiveBlock c6B2 31000 true true)).2.lastReceivedBlock =
      c6St.lastReceivedBlock ∧
    (nodeStep 30000 c6St (.receiveBlock c6B2 31000 true true)).2.lastDoubleForgedBlockTimestamp =
      some 30000 ∧
    NodeOutput.broadcastSignature "b1" 30000 ∉
      (nodeRun 30000 (nodeStep 30000 c6St (.receiveBlock c6B2 31000 true true)).2
        [.signAttempt c6B1 32000 true]).1 := by
  have h := C6_double_forge_defence 30000 (by decide) c6St c6B2 31000 true
    (by decide) (by decide) (by decide) (by decide) (by decide) (by decide)
  exact ⟨h.1, h.2.1, h.2.2.1, h.2.2.2 [.signAttempt c6B1 32000 true] "b1"⟩

/-- The configuration options read by `catchUpWithNetwork`.  The field
`catchUpConsensusMin` models the option named `catchUpConsensusMinRatio` in
the source; the sampled-consensus comparison is carried out in exact rational
arithmetic. -/
structure CatchUpConfig where
  forgingInterval : Int
  fetchBlockLimit : Nat
  maxConsecutiveBlockFetchFailures : Nat
  catchUpConsensusPollCount : Nat
  catchUpConsensusMin : ℚ
deriving DecidableEq

/-- The scripted observable behaviour of the network during one iteration of
the catch-up loop: the `getSignedBlocksFromHeight` answer (`none` models a
request failure or a non-array response), the `hasBlock` answers of the
sampled peers, and the per-block verify-and-process outcomes. -/
structure CatchUpIterationInput where
  response : Option (List Block)
  pollResults : List Bool
  processResults : List Bool
deriving DecidableEq

/-- The mutable state of the catch-up loop. -/
structure CatchUpState where
  lastProcessedBlock : Block
  addedBlockCount : Nat
  consecutiveFailureCount : Nat
deriving DecidableEq

/-- The chain-link check of a fetched batch (`index.js` lines 610-619): each
block must reference the id of the one before it, starting from the last
processed block. -/
def blockIdsLineUp (lastId : String) : List Block → Bool
  | [] => true
  | b :: bs => if b.previousBlockId = lastId then blockIdsLineUp b.id bs else false

/-- The number of sampled peers that confirmed `hasBlock` (`index.js` line
647). -/
def consensusMatchingCount (results : List Bool) : Nat :=
  results.countP fun r => r

/-- Processing of a verified batch (`index.js` lines 663-694): blocks are
processed in order; the first verification or processing failure breaks out
of the batch, keeping the progress made so far. -/
def processBatch (st : CatchUpState) : List Block → List Bool → CatchUpState
  | [], _ => st
  | _ :: _, [] => st
  | b :: bs, ok :: oks =>
    if ok then
      processBatch { st with lastProcessedBlock := b, addedBlockCount := st.addedBlockCount + 1 } bs oks
    else st

/-- The catch-up fetch loop (`index.js` lines 553-697).  The returned `Nat`
counts the `getSignedBlocksFromHeight` requests issued.  An exhausted script
models `isActive` becoming false, which falls out of the loop.  A failed or
malformed fetch counts towards `maxConsecutiveBlockFetchFailures`; an empty
batch means the node is synched; a batch whose ids do not line up, or whose
sampled consensus fraction `matching / pollCount` is strictly below
`catchUpConsensusMin`, is discarded and the loop exits. -/
def catchUpLoop (cfg : CatchUpConfig) :
    CatchUpState → List CatchUpIterationInput → CatchUpState × Nat
  | st, [] => (st, 0)
  | st, item :: rest =>
    match item.response with
    | none =>
      if cfg.maxConsecutiveBlockFetchFailures < st.consecutiveFailureCount + 1 then
        (st, 1)
      else
        let next := catchUpLoop cfg { st with consecutiveFailureCount := st.consecutiveFailureCount + 1 } rest
        (next.1, next.2 + 1)
    | some newBlocks =>
      if cfg.fetchBlockLimit < newBlocks.length then
        if cfg.maxConsecutiveBlockFetchFailures < st.consecutiveFailureCount + 1 then
          (st, 1)
        else
          let next := catchUpLoop cfg { st with consecutiveFailureCount := st.consecutiveFailureCount + 1 } rest
          (next.1, next.2 + 1)
      else
        let st1 : CatchUpState := { st with consecutiveFailureCount := 0 }
        if newBlocks.isEmpty then (st1, 1)
        else if blockIdsLineUp st1.lastProcessedBlock.id newBlocks = false then (st1, 1)
        else if (consensusMatchingCount item.pollResults : ℚ) /
            (cfg.catchUpConsensusPollCount : ℚ) < cfg.catchUpConsensusMin then
          (st1, 1)
        else
          let st2 := processBatch st1 newBlocks item.processResults
          let next := catchUpLoop cfg st2 rest
          (next.1, next.2 + 1)

/-- `catchUpWithNetwork` (`index.js` lines 528-704).  Before anything else it
compares the slot index of the last processed block with the slot index of
the wall clock (lines 539-547) and returns `(lastHeight, 0)` immediately,
with no peer requests, when the chain tip is already in the current or a
future slot.  Otherwise the fetch loop runs.  The result is
`((lastHeight, addedBlockCount), requestCount)`. -/
def catchUpWithNetwork (cfg : CatchUpConfig) (lastProcessedBlock : Block)
    (now : Int) (script : List CatchUpIterationInput) : (Int × Nat) × Nat :=
  if now / cfg.forgingInterval ≤ lastProcessedBlock.timestamp / cfg.forgingInterval then
    ((lastProcessedBlock.height, 0), 0)
  else
    let result := catchUpLoop cfg
      { lastProcessedBlock := lastProcessedBlock, addedBlockCount := 0,
        consecutiveFailureCount := 0 } script
    ((result.1.lastProcessedBlock.height, result.1.addedBlockCount), result.2)

/-- Claim C7: after a batch with correctly chaining ids is fetched, if the
fraction of confirming peers over `catchUpConsensusPollCount` is strictly
below the minimum consensus fraction, the whole batch is discarded — the
loop state keeps its last processed block and added-block count — and the
loop exits without consuming the rest of the script. -/
theorem C7_catchup_consensus_discard (cfg : CatchUpConfig) (st : CatchUpState)
    (item : CatchUpIterationInput) (rest : List CatchUpIterationInput)
    (newBlocks : List Block) (hresp : item.response = some newBlocks)
    (hne : newBlocks ≠ []) (hlen : newBlocks.length ≤ cfg.fetchBlockLimit)
    (hline : blockIdsLineUp st.lastProcessedBlock.id newBlocks = true)
    (hlow : (consensusMatchingCount item.pollResults : ℚ) /
      (cfg.catchUpConsensusPollCount : ℚ) < cfg.catchUpConsensusMin) :
    catchUpLoop cfg st (item :: rest) =
      ({ st with consecutiveFailureCount := 0 }, 1) := by
  rw [catchUpLoop, hresp]
  simp only []
  rw [if_neg (not_lt.mpr hlen),
    if_neg (by rw [List.isEmpty_iff]; exact hne),
    if_neg (by rw [hline]; exact fun h => Bool.noConfusion h),
    if_pos hlow]

/-- The concrete C7 configuration: poll count 6, minimum consensus one
half. -/
def c7Config : CatchUpConfig :=
  { forgingInterval := 30000, fetchBlockLimit := 10,
    maxConsecutiveBlockFetchFailures := 5, catchUpConsensusPollCount := 6,
    catchUpConsensusMin := 1 / 2 }

/-- The concrete C7 loop state. -/
def c7State : CatchUpState :=
  { lastProcessedBlock := c1LastBlock, addedBlockCount := 0,
    consecutiveFailureCount := 0 }

/-- The concrete C7 iteration: one chaining block fetched, two of the six
sampled peers confirm. -/
def c7Item : CatchUpIterationInput :=
  { response := some [c1Block],
    pollResults := [true, true, false, false, false, false],
    processResults := [true] }

/-- Witness for C7 on concrete data: with poll count 6 and minimum one half,
exactly 2 confirmations out of 6 discard the batch and exit the loop. -/
theorem C7_catchup_consensus_discard_witness :
    consensusMatchingCount c7Item.pollResults = 2 ∧
    catchUpLoop c7Config c7State [c7Item] = (c7State, 1) := by
  refine ⟨by decide, ?_⟩
  have hlow : (consensusMatchingCount c7Item.pollResults : ℚ) /
      (c7Config.catchUpConsensusPollCount : ℚ) < c7Config.catchUpConsensusMin := by
    have hcount : consensusMatchingCount c7Item.pollResults = 2 := by decide
    rw [hcount]
    norm_num [c7Config]
  have h := C7_catchup_consensus_discard c7Config c7State c7Item [] [c1Block]
    rfl (by decide) (by decide) (by decide) hlow
  exact h.trans (by rfl)

/-- Claim C10: whenever the slot index of the last processed block timestamp
is at least the slot index of the wall clock, `catchUpWithNetwork` returns
`(lastProcessedBlock.height, 0)` immediately, issuing no peer requests and
processing no blocks, regardless of what the network would have answered. -/
theorem C10_catchup_early_return (cfg : CatchUpConfig)
    (lastProcessedBlock : Block) (now : Int)
    (script : List CatchUpIterationInput)
    (h : now / cfg.forgingInterval ≤
      lastProcessedBlock.timestamp / cfg.forgingInterval) :
    catchUpWithNetwork cfg lastProcessedBlock now script =
      ((lastProcessedBlock.height, 0), 0) := by
  rw [catchUpWithNetwork, if_pos h]

/-- Witness for C10 on concrete data: a chain tip inside the current slot
causes an immediate return with zero added blocks and zero requests, even
with a pending script. -/
theorem C10_catchup_early_return_witness :
    catchUpWithNetwork c7Config c1Block 45000 [c7Item] = ((1, 0), 0) :=
  C10_catchup_early_return c7Config c1Block 45000 [c7Item] (by decide)

/-- The per-sender mempool consumer state for a sig sender: the in-memory
account snapshot balance, the sig key window, and the ids of the pending
transactions (`accountStream.transactionInfoMap` keys in insertion
order). -/
structure MempoolSenderState where
  balance : Int
  sigWindow : SigWindowAccount
  pendingIds : List String
deriving DecidableEq

/-- A transaction as seen by the per-sender mempool consumer, restricted to
the fields that drive the ordering rules.  The `type` field carries the
transaction type string from the wire format. -/
structure PendingTxn where
  id : String
  type : String
  sigPublicKey : String
  nextSigKeyIndex : Int
deriving DecidableEq

/-- One run of the sig-sender branch of the mempool consumer body
(`processReceivedTransaction`, `index.js` lines 2622-2799) on one dequeued
transaction.  `authorizedTotal` is the oracle for
`verifySigTransactionAuthorization`: `none` models a thrown authorization
error, `some total` the returned spendable total.  `isPendingMultisigSigner`
models `this.pendingSignerMultisigTransactions[senderAddress]` being
non-empty.  The returned `Bool` records whether the transaction was accepted
into the pending maps.  As in the source, the duplicate check precedes the
balance decrement, the `registerMultisigDetails` and `registerSigDetails`
rules precede the key-index window check, and the pending maps are only
written after every check has passed. -/
def mempoolSigConsumerStep (isPendingMultisigSigner : Bool)
    (authorizedTotal : Option Int) (st : MempoolSenderState) (t : PendingTxn) :
    Bool × MempoolSenderState :=
  match authorizedTotal with
  | none => (false, st)
  | some txnTotal =>
    if t.id ∈ st.pendingIds then (false, st)
    else
      let st1 : MempoolSenderState := { st with balance := st.balance - txnTotal }
      if t.type = "registerMultisigDetails" ∧ isPendingMultisigSigner = true then
        (false, st1)
      else if t.type = "registerSigDetails" ∧ st.pendingIds ≠ [] then
        (false, st1)
      else
        match applySigKeyIndexCheck st1.sigWindow t.sigPublicKey t.nextSigKeyIndex with
        | .error _ => (false, st1)
        | .ok window =>
          (true, { st1 with sigWindow := window, pendingIds := st1.pendingIds ++ [t.id] })

/-- Claim C9: in the per-sender mempool consumer a `registerSigDetails`
transaction is rejected whenever the pending transaction map of the sender
is non-empty, and a `registerMultisigDetails` transaction is rejected
whenever the sender is currently recorded as a signer on a pending multisig
transaction; in both cases the pending transaction set is left unchanged. -/
theorem C9_register_details_ordering (isPendingMultisigSigner : Bool)
    (authorizedTotal : Option Int) (st : MempoolSenderState) (t : PendingTxn) :
    (t.type = "registerSigDetails" → st.pendingIds ≠ [] →
      (mempoolSigConsumerStep isPendingMultisigSigner authorizedTotal st t).1 = false ∧
      (mempoolSigConsumerStep isPendingMultisigSigner authorizedTotal st t).2.pendingIds =
        st.pendingIds) ∧
    (t.type = "registerMultisigDetails" → isPendingMultisigSigner = true →
      (mempoolSigConsumerStep isPendingMultisigSigner authorizedTotal st t).1 = false ∧
      (mempoolSigConsumerStep isPendingMultisigSigner authorizedTotal st t).2.pendingIds =
        st.pendingIds) := by
  rcases hauth : authorizedTotal with _ | txnTotal
  · rw [mempoolSigConsumerStep]
    exact ⟨fun _ _ => ⟨rfl, rfl⟩, fun _ _ => ⟨rfl, rfl⟩⟩
  · rw [mempoolSigConsumerStep]
    by_cases hdup : t.id ∈ st.pendingIds
    · rw [if_pos hdup]
      exact ⟨fun _ _ => ⟨rfl, rfl⟩, fun _ _ => ⟨rfl, rfl⟩⟩
    rw [if_neg hdup]
    constructor
    · intro htype hne
      have hmd : ¬ (t.type = "registerMultisigDetails" ∧ isPendingMultisigSigner = true) := by
        rintro ⟨h1, -⟩
        rw [htype] at h1
        exact absurd h1 (by decide)
      rw [if_neg hmd, if_pos ⟨htype, hne⟩]
      exact ⟨rfl, rfl⟩
    · intro htype hsigner
      rw [if_pos ⟨htype, hsigner⟩]
      exact ⟨rfl, rfl⟩

/-- The concrete C9 state: one pending transaction, empty window. -/
def c9State : MempoolSenderState :=
  { balance := 100,
    sigWindow := { nextSigPublicKey := some "K2", lowestNextSigPublicKeyIndex := some 5, highestSigPublicKeyIndex := none },
    pendingIds := ["t1"] }

/-- Witness for C9 on concrete data: with one pending transaction, a
`registerSigDetails` transaction is rejected with the pending set unchanged,
and for a sender who signs a pending multisig transaction a
`registerMultisigDetails` transaction is rejected likewise. -/
theorem C9_register_details_ordering_witness :
    ((mempoolSigConsumerStep false (some 10) c9State
        ⟨"t2", "registerSigDetails", "K1", 4⟩).1 = false ∧
      (mempoolSigConsumerStep false (some 10) c9State
        ⟨"t2", "registerSigDetails", "K1", 4⟩).2.pendingIds = c9State.pendingIds) ∧
    ((mempoolSigConsumerStep true (some 10) c9State
        ⟨"t3", "registerMultisigDetails", "K1", 4⟩).1 = false ∧
      (mempoolSigConsumerStep true (some 10) c9State
        ⟨"t3", "registerMultisigDetails", "K1", 4⟩).2.pendingIds = c9State.pendingIds) :=
  ⟨(C9_register_details_ordering false (some 10) c9State
      ⟨"t2", "registerSigDetails", "K1", 4⟩).1 rfl (by decide),
   (C9_register_details_ordering true (some 10) c9State
      ⟨"t3", "registerMultisigDetails", "K1", 4⟩).2 rfl rfl⟩

/-- A signature packet of a pending multisig transaction, restricted to the
fields used by `sortPendingTransactions`. -/
structure MSigPacket where
  signerAddress : String
  nextMultisigKeyIndex : Int
deriving DecidableEq

/-- A pending transaction as seen by `sortPendingTransactions` (`index.js`
lines 1964-2051).  Fees arrive on the wire as decimal digit strings (they
are bounded by `maxSpendableDigits` and converted with `BigInt(fee)`
everywhere else in the module), so `fee` is a `String` here; a sig
transaction carries `sigPublicKey` and no `signatures` list, a multisig
transaction the converse. -/
structure PTxn where
  senderAddress : String
  fee : String
  sigPublicKey : Option String
  nextSigKeyIndex : Int
  signatures : Option (List MSigPacket)
deriving DecidableEq

/-- The signature packets of a transaction (empty for a sig transaction). -/
def txnSignatures (t : PTxn) : List MSigPacket := t.signatures.getD []

/-- Insertion into the sender group map, preserving first-appearance order of
senders and arrival order inside a group (`index.js` lines 1969-1980). -/
def addToGroup : List (String × List PTxn) → PTxn → List (String × List PTxn)
  | [], t => [(t.senderAddress, [t])]
  | g :: gs, t =>
    if g.1 = t.senderAddress then (g.1, g.2 ++ [t]) :: gs
    else g :: addToGroup gs t

/-- Grouping of the input transactions by sender address. -/
def groupBySender (ts : List PTxn) : List (String × List PTxn) :=
  ts.foldl addToGroup []

/-- The group type, taken from the first transaction of the group
(`transactionGroup.type`, `index.js` lines 1975-1977). -/
def groupIsSig : List PTxn → Bool
  | [] => true
  | t :: _ => t.sigPublicKey.isSome

/-- One step of the per-member minimum computation (`index.js` lines
1996-2006).  The JavaScript guard is `!memberMinKeyIndexes[addr] ||
index < memberMinKeyIndexes[addr]`, so a previously stored value of `0` is
falsy and is overwritten by whatever index comes next; this is mirrored by
the `v = 0` disjunct. -/
def memberMinFold (m : String → Option Int) (p : MSigPacket) : String → Option Int :=
  fun a =>
    if a = p.signerAddress then
      match m p.signerAddress with
      | none => some p.nextMultisigKeyIndex
      | some v =>
        if v = 0 ∨ p.nextMultisigKeyIndex < v then some p.nextMultisigKeyIndex
        else some v
    else m a

/-- The per-member key-index minima of a multisig group as the source
computes them. -/
def memberMinKeyIndexes (g : List PTxn) : String → Option Int :=
  g.foldl (fun m t => (txnSignatures t).foldl memberMinFold m) (fun _ => none)

/-- The average, over the signature packets of a transaction, of the key
index minus the per-member reference value (`index.js` lines 2007-2029). -/
def multisigKeyDelta (m : String → Option Int) (t : PTxn) : ℚ :=
  ((txnSignatures t).map fun p =>
    ((p.nextMultisigKeyIndex : ℚ) - (((m p.signerAddress).getD 0 : Int) : ℚ))).sum /
  ((txnSignatures t).length : ℚ)

/-- The sig-group comparison: ascending `nextSigKeyIndex` (`index.js` lines
1985-1993). -/
def txnSigLE (a b : PTxn) : Prop := a.nextSigKeyIndex ≤ b.nextSigKeyIndex

instance : DecidableRel txnSigLE :=
  fun a b => inferInstanceAs (Decidable (a.nextSigKeyIndex ≤ b.nextSigKeyIndex))

instance : IsTotal PTxn txnSigLE := ⟨fun a b => le_total _ _⟩

instance : IsTrans PTxn txnSigLE := ⟨fun _ _ _ => le_trans⟩

/-- The multisig-group comparison: ascending average key-index delta. -/
def multisigLE (m : String → Option Int) (a b : PTxn) : Prop :=
  multisigKeyDelta m a ≤ multisigKeyDelta m b

instance (m : String → Option Int) : DecidableRel (multisigLE m) :=
  fun a b => inferInstanceAs (Decidable (multisigKeyDelta m a ≤ multisigKeyDelta m b))

instance (m : String → Option Int) : IsTotal PTxn (multisigLE m) :=
  ⟨fun a b => le_total _ _⟩

instance (m : String → Option Int) : IsTrans PTxn (multisigLE m) :=
  ⟨fun _ _ _ => le_trans⟩

/-- The numeric value of a decimal digit string, as JavaScript `ToNumber`
reads it (modelled exactly; the float rounding of very long numerals is the
same disclosed idealization as elsewhere). -/
def decimalValue (s : String) : Nat :=
  s.data.foldl (fun acc c => acc * 10 + (c.toNat - 48)) 0

/-- `transactionGroup.totalFees += txn.fee` (`index.js` line 1978):
`totalFees` starts as the number `0`, and since the fees are strings the
first `+=` converts it to the string `"0"` and every `+=` concatenates, so
the accumulated value is the string `"0"` followed by the group fee strings
in arrival order. -/
def groupTotalFeesStr (g : List PTxn) : String :=
  g.foldl (fun acc t => acc ++ t.fee) "0"

/-- `transactionGroup.averageFee = totalFees / transactions.length`
(`index.js` line 2031): the string accumulated by the `+=` concatenation is
coerced back to a number by the division. -/
def groupAverageFee (g : List PTxn) : ℚ :=
  (decimalValue (groupTotalFeesStr g) : ℚ) / (g.length : ℚ)

/-- For a single-transaction group the concatenated accumulator is `"0"`
followed by the one fee string, so the group key coincides with the fee
value: only there does the source key agree with total fees divided by
transaction count. -/
theorem groupAverageFee_singleton (t : PTxn) :
    groupAverageFee [t] = (decimalValue t.fee : ℚ) := by
  have hdata : ("0" ++ t.fee).data = Char.ofNat 48 :: t.fee.data := by simp
  rw [groupAverageFee, groupTotalFeesStr]
  simp only [List.foldl_cons, List.foldl_nil, List.length_singleton]
  rw [decimalValue, hdata]
  simp [decimalValue]

/-- The claim-side between-group key: the sum of the group fee values
divided by the transaction count. -/
def trueGroupAverageFee (g : List PTxn) : ℚ :=
  ((g.map fun t => (decimalValue t.fee : ℚ)).sum) / (g.length : ℚ)

/-- The between-group comparison: descending average fee (`index.js` lines
2034-2042). -/
def groupFeeGE (a b : String × List PTxn) : Prop :=
  groupAverageFee b.2 ≤ groupAverageFee a.2

instance : DecidableRel groupFeeGE :=
  fun a b => inferInstanceAs (Decidable (groupAverageFee b.2 ≤ groupAverageFee a.2))

instance : IsTotal (String × List PTxn) groupFeeGE := ⟨fun a b => le_total _ _⟩

instance : IsTrans (String × List PTxn) groupFeeGE :=
  ⟨fun _ _ _ h1 h2 => le_trans h2 h1⟩

/-- The in-group sort (`index.js` lines 1982-2030): sig groups by ascending
`nextSigKeyIndex`, multisig groups by ascending average key-index delta
relative to the per-member minima of the group.  `List.insertionSort` is a
stable sort, matching the stability of JavaScript `Array.prototype.sort`. -/
def sortGroupTxns (g : List PTxn) : List PTxn :=
  if groupIsSig g then List.insertionSort txnSigLE g
  else List.insertionSort (multisigLE (memberMinKeyIndexes g)) g

/-- `sortPendingTransactions` (`index.js` lines 1964-2051): group by sender,
sort inside each group, order the groups by descending average fee, and
concatenate. -/
def sortPendingTransactions (ts : List PTxn) : List PTxn :=
  let sortedGroups := (groupBySender ts).map fun g => (g.1, sortGroupTxns g.2)
  let orderedGroups := List.insertionSort groupFeeGE sortedGroups
  (orderedGroups.map fun g => g.2).flatten

/-- One step of the claim-side per-member minimum: a plain running
minimum. -/
def trueMemberMinFold (m : String → Option Int) (p : MSigPacket) : String → Option Int :=
  fun a =>
    if a = p.signerAddress then
      match m p.signerAddress with
      | none => some p.nextMultisigKeyIndex
      | some v => some (min p.nextMultisigKeyIndex v)
    else m a

/-- The claim-side per-member minimum `nextMultisigKeyIndex` over all
signature packets of a group. -/
def trueMemberMin (g : List PTxn) : String → Option Int :=
  g.foldl (fun m t => (txnSignatures t).foldl trueMemberMinFold m) (fun _ => none)

/-- Every transaction stored in a sender group carries that group sender
address. -/
theorem addToGroup_senders (gs : List (String × List PTxn)) (t : PTxn)
    (h : ∀ g ∈ gs, ∀ u ∈ g.2, u.senderAddress = g.1) :
    ∀ g ∈ addToGroup gs t, ∀ u ∈ g.2, u.senderAddress = g.1 := by
  induction gs with
  | nil =>
    intro g hg u hu
    simp only [addToGroup, List.mem_singleton] at hg
    subst hg
    simp only [List.mem_singleton] at hu
    subst hu
    rfl
  | cons g0 gs ih =>
    intro g hg u hu
    rw [addToGroup] at hg
    by_cases heq : g0.1 = t.senderAddress
    · rw [if_pos heq] at hg
      rcases List.mem_cons.mp hg with hg1 | hg2
      · subst hg1
        rcases List.mem_append.mp hu with hu1 | hu2
        · exact h g0 (List.mem_cons_self g0 gs) u hu1
        · simp only [List.mem_singleton] at hu2
          subst hu2
          exact heq.symm
      · exact h g (List.mem_cons_of_mem g0 hg2) u hu
    · rw [if_neg heq] at hg
      rcases List.mem_cons.mp hg with hg1 | hg2
      · subst hg1
        exact h g (List.mem_cons_self g gs) u hu
      · exact ih (fun g2 hg2b => h g2 (List.mem_cons_of_mem g0 hg2b)) g hg2 u hu

/-- Every transaction in a group produced by `groupBySender` carries the
group sender address. -/
theorem groupBySender_senders (ts : List PTxn) :
    ∀ g ∈ groupBySender ts, ∀ u ∈ g.2, u.senderAddress = g.1 := by
  rw [groupBySender]
  have main : ∀ (l : List PTxn) (gs : List (String × List PTxn)),
      (∀ g ∈ gs, ∀ u ∈ g.2, u.senderAddress = g.1) →
      ∀ g ∈ l.foldl addToGroup gs, ∀ u ∈ g.2, u.senderAddress = g.1 := by
    intro l
    induction l with
    | nil => intro gs h; exact h
    | cons t l ih =>
      intro gs h
      rw [List.foldl_cons]
      exact ih (addToGroup gs t) (addToGroup_senders gs t h)
  exact main ts [] (by intro g hg; simp at hg)

/-- Inserting a transaction into the group map appends it to the flattened
contents, up to permutation. -/
theorem addToGroup_flatten_perm (gs : List (String × List PTxn)) (t : PTxn) :
    ((addToGroup gs t).map fun g => g.2).flatten ~
      ((gs.map fun g => g.2).flatten ++ [t]) := by
  induction gs with
  | nil => simp [addToGroup]
  | cons g0 gs ih =>
    rw [addToGroup]
    by_cases heq : g0.1 = t.senderAddress
    · rw [if_pos heq]
      simp only [List.map_cons, List.flatten_cons]
      calc (g0.2 ++ [t]) ++ (gs.map fun g => g.2).flatten
          ~ g0.2 ++ ([t] ++ (gs.map fun g => g.2).flatten) := by
            rw [List.append_assoc]
        _ ~ g0.2 ++ ((gs.map fun g => g.2).flatten ++ [t]) :=
            List.Perm.append_left g0.2 (List.perm_append_comm)
        _ ~ (g0.2 ++ (gs.map fun g => g.2).flatten) ++ [t] := by
            rw [List.append_assoc]
    · rw [if_neg heq]
      simp only [List.map_cons, List.flatten_cons]
      calc g0.2 ++ ((addToGroup gs t).map fun g => g.2).flatten
          ~ g0.2 ++ ((gs.map fun g => g.2).flatten ++ [t]) :=
            List.Perm.append_left g0.2 ih
        _ ~ (g0.2 ++ (gs.map fun g => g.2).flatten) ++ [t] := by
            rw [List.append_assoc]

/-- The flattened contents of the sender grouping is a permutation of the
input list. -/
theorem groupBySender_flatten_perm (ts : List PTxn) :
    (((groupBySender ts).map fun g => g.2).flatten) ~ ts := by
  rw [groupBySender]
  have main : ∀ (l : List PTxn) (gs : List (String × List PTxn)),
      ((l.foldl addToGroup gs).map fun g => g.2).flatten ~
        ((gs.map fun g => g.2).flatten ++ l) := by
    intro l
    induction l with
    | nil => intro gs; simp
    | cons t l ih =>
      intro gs
      rw [List.foldl_cons]
      calc ((l.foldl addToGroup (addToGroup gs t)).map fun g => g.2).flatten
          ~ (((addToGroup gs t).map fun g => g.2).flatten ++ l) := ih (addToGroup gs t)
        _ ~ (((gs.map fun g => g.2).flatten ++ [t]) ++ l) :=
            List.Perm.append_right l (addToGroup_flatten_perm gs t)
        _ ~ ((gs.map fun g => g.2).flatten ++ (t :: l)) := by
            rw [List.append_assoc]
            exact List.Perm.append_left _ (by simp)
  simpa using main ts []

/-- A permutation of lists of lists flattens to a permutation. -/
theorem flatten_perm_of_perm {α : Type} {l₁ l₂ : List (List α)} (h : l₁ ~ l₂) :
    l₁.flatten ~ l₂.flatten := by
  induction h with
  | nil => exact List.Perm.refl _
  | cons x h ih => simpa using List.Perm.append_left x ih
  | swap x y l =>
    simp only [List.flatten_cons]
    calc y ++ (x ++ l.flatten)
        ~ (y ++ x) ++ l.flatten := by rw [List.append_assoc]
      _ ~ (x ++ y) ++ l.flatten :=
          List.Perm.append_right _ List.perm_append_comm
      _ ~ x ++ (y ++ l.flatten) := by rw [List.append_assoc]
  | trans h1 h2 ih1 ih2 => exact ih1.trans ih2

/-- All values stored in a member-minimum map are nonzero. -/
def NonzeroVals (m : String → Option Int) : Prop :=
  ∀ a v, m a = some v → v ≠ 0

/-- When the stored value is nonzero, the JavaScript falsy test in
`memberMinFold` behaves as a plain running minimum. -/
theorem memberMinFold_eq (m : String → Option Int) (p : MSigPacket)
    (hm : NonzeroVals m) (hp : p.nextMultisigKeyIndex ≠ 0) :
    memberMinFold m p = trueMemberMinFold m p := by
  funext a
  rw [memberMinFold, trueMemberMinFold]
  by_cases ha : a = p.signerAddress
  · rw [if_pos ha, if_pos ha]
    split
    · rfl
    · next v heq =>
      have hvne : v ≠ 0 := hm _ _ heq
      by_cases hlt : p.nextMultisigKeyIndex < v
      · rw [if_pos (Or.inr hlt), min_eq_left hlt.le]
      · rw [if_neg (by rintro (h | h); exacts [hvne h, hlt h]),
          min_eq_right (not_lt.mp hlt)]
  · rw [if_neg ha, if_neg ha]

/-- `memberMinFold` keeps all stored values nonzero when the inserted index
is nonzero. -/
theorem memberMinFold_nonzero (m : String → Option Int) (p : MSigPacket)
    (hm : NonzeroVals m) (hp : p.nextMultisigKeyIndex ≠ 0) :
    NonzeroVals (memberMinFold m p) := by
  intro a v hv
  rw [memberMinFold] at hv
  by_cases ha : a = p.signerAddress
  · rw [if_pos ha] at hv
    split at hv
    · injection hv with h
      omega
    · next w heq =>
      split at hv
      · injection hv with h
        omega
      · injection hv with h
        have := hm _ _ heq
        omega
  · rw [if_neg ha] at hv
    exact hm _ _ hv

/-- Folding nonzero packets with the source fold agrees with the plain
minimum fold and preserves nonzero stored values. -/
theorem packetsFold_eq (ps : List MSigPacket) (m : String → Option Int)
    (hm : NonzeroVals m) (hps : ∀ p ∈ ps, p.nextMultisigKeyIndex ≠ 0) :
    ps.foldl memberMinFold m = ps.foldl trueMemberMinFold m ∧
      NonzeroVals (ps.foldl memberMinFold m) := by
  induction ps generalizing m with
  | nil => exact ⟨rfl, hm⟩
  | cons p ps ih =>
    have hp := hps p (List.mem_cons_self p ps)
    have h1 := memberMinFold_eq m p hm hp
    have h2 := memberMinFold_nonzero m p hm hp
    rw [List.foldl_cons, List.foldl_cons, ← h1]
    exact ih (memberMinFold m p) h2 (fun q hq => hps q (List.mem_cons_of_mem p hq))

/-- Folding whole transactions agrees likewise. -/
theorem txnsFold_eq (g : List PTxn) (m : String → Option Int)
    (hm : NonzeroVals m)
    (hg : ∀ t ∈ g, ∀ p ∈ txnSignatures t, p.nextMultisigKeyIndex ≠ 0) :
    g.foldl (fun m2 t => (txnSignatures t).foldl memberMinFold m2) m =
      g.foldl (fun m2 t => (txnSignatures t).foldl trueMemberMinFold m2) m ∧
    NonzeroVals (g.foldl (fun m2 t => (txnSignatures t).foldl memberMinFold m2) m) := by
  induction g generalizing m with
  | nil => exact ⟨rfl, hm⟩
  | cons t g ih =>
    have h := packetsFold_eq (txnSignatures t) m hm (hg t (List.mem_cons_self t g))
    rw [List.foldl_cons, List.foldl_cons]
    rw [show ((txnSignatures t).foldl trueMemberMinFold m) =
      ((txnSignatures t).foldl memberMinFold m) from h.1.symm]
    exact ih _ h.2 (fun u hu => hg u (List.mem_cons_of_mem t hu))

/-- When no `nextMultisigKeyIndex` in the group is zero, the per-member
reference values computed by the source are exactly the per-member
minima. -/
theorem memberMinKeyIndexes_eq_trueMemberMin (g : List PTxn)
    (hg : ∀ t ∈ g, ∀ p ∈ txnSignatures t, p.nextMultisigKeyIndex ≠ 0) :
    memberMinKeyIndexes g = trueMemberMin g := by
  rw [memberMinKeyIndexes, trueMemberMin]
  exact (txnsFold_eq g (fun _ => none) (fun a v hv => by simp at hv) hg).1

/-- The between-group comparison lifted to pairs of a group and its sorted
transaction list. -/
def pairFeeGE (a b : (String × List PTxn) × List PTxn) : Prop :=
  groupAverageFee b.2 ≤ groupAverageFee a.2

instance : DecidableRel pairFeeGE :=
  fun a b => inferInstanceAs (Decidable (groupAverageFee b.2 ≤ groupAverageFee a.2))

instance : IsTotal ((String × List PTxn) × List PTxn) pairFeeGE :=
  ⟨fun a b => le_total _ _⟩

instance : IsTrans ((String × List PTxn) × List PTxn) pairFeeGE :=
  ⟨fun _ _ _ h1 h2 => le_trans h2 h1⟩

/-- The in-group sort is a permutation of the group. -/
theorem sortGroupTxns_perm (g : List PTxn) : sortGroupTxns g ~ g := by
  rw [sortGroupTxns]
  split_ifs
  · exact List.perm_insertionSort _ g
  · exact List.perm_insertionSort _ g

/-- Every transaction of a sender group belongs to the grouped input. -/
theorem groupBySender_mem_of_mem (ts : List PTxn) (g : String × List PTxn)
    (hg : g ∈ groupBySender ts) (t : PTxn) (ht : t ∈ g.2) : t ∈ ts := by
  have hmem : t ∈ (((groupBySender ts).map fun g2 => g2.2).flatten) := by
    rw [List.mem_flatten]
    exact ⟨g.2, List.mem_map.mpr ⟨g, hg, rfl⟩, ht⟩
  exact (groupBySender_flatten_perm ts).mem_iff.mp hmem

/-- The C8 witness transaction: a single sig transaction. -/
def c8wTxn : PTxn :=
  { senderAddress := "A", fee := "1", sigPublicKey := some "K",
    nextSigKeyIndex := 3, signatures := none }

/-- Counterexample transactions: all from the multisig wallet S, all with
fee 1; member M appears with key indexes 0 and 10, member N with 5 and 6. -/
def c8z : PTxn :=
  { senderAddress := "S", fee := "1", sigPublicKey := none,
    nextSigKeyIndex := 0, signatures := some [{ signerAddress := "M", nextMultisigKeyIndex := 0 }] }

/-- Counterexample transaction with the large M index. -/
def c8x : PTxn :=
  { senderAddress := "S", fee := "1", sigPublicKey := none,
    nextSigKeyIndex := 0, signatures := some [{ signerAddress := "M", nextMultisigKeyIndex := 10 }] }

/-- Counterexample transaction with the small N index. -/
def c8w : PTxn :=
  { senderAddress := "S", fee := "1", sigPublicKey := none,
    nextSigKeyIndex := 0, signatures := some [{ signerAddress := "N", nextMultisigKeyIndex := 5 }] }

/-- Counterexample transaction with the large N index. -/
def c8y : PTxn :=
  { senderAddress := "S", fee := "1", sigPublicKey := none,
    nextSigKeyIndex := 0, signatures := some [{ signerAddress := "N", nextMultisigKeyIndex := 6 }] }

/-- The counterexample input list. -/
def c8Input : List PTxn := [c8z, c8x, c8w, c8y]

/-- The fee-side counterexample transactions: sender P sends two
transactions with fee "10000000" each, sender Q one with fee "20000000". -/
def c8p1 : PTxn :=
  { senderAddress := "P", fee := "10000000", sigPublicKey := some "KP",
    nextSigKeyIndex := 1, signatures := none }

/-- The second fee-counterexample transaction of sender P. -/
def c8p2 : PTxn :=
  { senderAddress := "P", fee := "10000000", sigPublicKey := some "KP",
    nextSigKeyIndex := 2, signatures := none }

/-- The fee-counterexample transaction of sender Q. -/
def c8q1 : PTxn :=
  { senderAddress := "Q", fee := "20000000", sigPublicKey := some "KQ",
    nextSigKeyIndex := 1, signatures := none }

/-- The fee-side counterexample input list. -/
def c8FeeInput : List PTxn := [c8p1, c8p2, c8q1]

end LdposChain
